import Mathlib

/-!
Verification of the VoiceTextPro large-file transcription pipeline.

Shallow embedding of the segmentation / upload-retry / polling / merge
logic of `enhanced_large_file_processor.py`, `large_file_transcription.py`,
`comprehensive_large_file_handler.py` and `speaker_analysis_core.py`.
Python dictionaries become structures, `None` becomes `Option`, millisecond
timestamps become `Int`, confidences become `ℚ`, and the float arithmetic of
the duration/progress computations is modelled over `ℚ`.
-/

namespace VTP

/-- An utterance as it appears in an AssemblyAI result payload:
millisecond timestamps, a speaker label, text and a confidence. -/
structure MUtterance where
  speaker : String
  text : String
  start : Int
  endTime : Int
  confidence : ℚ
deriving DecidableEq

/-- A `(start, end)` millisecond range inside a highlight's timestamp list. -/
structure TimeRange where
  start : Int
  endTime : Int
deriving DecidableEq

/-- One item of `auto_highlights_result.results`. -/
structure Highlight where
  text : String
  timestamps : List TimeRange
deriving DecidableEq

/-- One item of `chapters`. -/
structure Chapter where
  headline : String
  start : Int
  endTime : Int
deriving DecidableEq

/-- The terminal payload of one completed segment job, as consumed by
`EnhancedLargeFileProcessor.merge_segment_transcriptions`.
`audio_duration` is `none` when the provider omitted the field; sentiment
and entity items carry no independent timestamps and are kept opaque. -/
structure SegmentResult where
  text : String
  utterances : List MUtterance
  confidence : ℚ
  audio_duration : Option Int
  highlights : List Highlight
  chapters : List Chapter
  sentiments : List String
  entities : List String
  content_safety : Option String
deriving DecidableEq

/-- `adjusted_utterance['start'] += time_offset; adjusted_utterance['end'] += time_offset`. -/
def shiftUtterance (off : Int) (u : MUtterance) : MUtterance :=
  { u with start := u.start + off, endTime := u.endTime + off }

/-- `adjusted_chapter['start'] += time_offset; adjusted_chapter['end'] += time_offset`. -/
def shiftChapter (off : Int) (c : Chapter) : Chapter :=
  { c with start := c.start + off, endTime := c.endTime + off }

/-- The mutable accumulators of the merge loop in
`merge_segment_transcriptions` (lines 325-372). -/
structure MergeAcc where
  text : String
  utterances : List MUtterance
  highlights : List Highlight
  chapters : List Chapter
  sentiments : List String
  entities : List String
  timeOffset : Int
deriving DecidableEq

/-- Initial accumulator state: empty collections and `time_offset = 0`. -/
def initAcc : MergeAcc :=
  { text := "", utterances := [], highlights := [], chapters := [],
    sentiments := [], entities := [], timeOffset := 0 }

/-- One iteration of the `for i, result in enumerate(segment_results)` loop in
`merge_segment_transcriptions`.  A falsy (`None`) result is skipped entirely
(`if not result: continue`): nothing is appended and `time_offset` is not
advanced.  For a successful result the text is appended behind a
segment-boundary marker, utterances and chapters are shifted by the current
offset, highlights / sentiments / entities are extended unchanged, and the
offset advances by the reported `audio_duration` when that field is truthy. -/
def mergeStep (i : Nat) (acc : MergeAcc) (r? : Option SegmentResult) : MergeAcc :=
  match r? with
  | none => acc
  | some r =>
    { text :=
        if r.text = "" then acc.text
        else (if acc.text = "" then acc.text else acc.text ++ "\n\n") ++
          "[段落 " ++ toString (i + 1) ++ "]\n" ++ r.text
      utterances := acc.utterances ++ r.utterances.map (shiftUtterance acc.timeOffset)
      highlights := acc.highlights ++ r.highlights
      chapters := acc.chapters ++ r.chapters.map (shiftChapter acc.timeOffset)
      sentiments := acc.sentiments ++ r.sentiments
      entities := acc.entities ++ r.entities
      timeOffset :=
        match r.audio_duration with
        | none => acc.timeOffset
        | some d => if d = 0 then acc.timeOffset else acc.timeOffset + d }

/-- The whole merge loop, threading the enumeration index `i`. -/
def mergeLoopFrom (i : Nat) (acc : MergeAcc) : List (Option SegmentResult) → MergeAcc
  | [] => acc
  | r? :: rest => mergeLoopFrom (i + 1) (mergeStep i acc r?) rest

/-- `segment_results if r` — the list of truthy (successful) results. -/
def truthySegments (rs : List (Option SegmentResult)) : List SegmentResult :=
  rs.filterMap id

/-- `EnhancedLargeFileProcessor.merge_segment_transcriptions` (lines 316-387).
Returns `.ok none` for the `return None` paths, `.ok (some r)` for a produced
merged dictionary, and `.error ()` for the `ZeroDivisionError` raised by the
running-mean confidence when no segment result is truthy. -/
def merge_segment_transcriptions : List (Option SegmentResult) → Except Unit (Option SegmentResult)
  | [] => .ok none
  | [r?] => .ok r?
  | rs =>
    let acc := mergeLoopFrom 0 initAcc rs
    let succ := truthySegments rs
    if succ.length = 0 then .error ()
    else .ok (some
      { text := acc.text
        utterances := acc.utterances
        confidence := (succ.map (·.confidence)).sum / (succ.length : ℚ)
        audio_duration := some acc.timeOffset
        highlights := acc.highlights
        chapters := acc.chapters
        sentiments := acc.sentiments
        entities := acc.entities
        content_safety :=
          match rs.head? with
          | some (some r) => r.content_safety
          | _ => none })

/-- Utterance start times of a merged result, `[]` when the merge failed. -/
def mergedUtteranceStarts (e : Except Unit (Option SegmentResult)) : List Int :=
  match e with
  | .ok (some m) => m.utterances.map (·.start)
  | _ => []

/-- Merged utterances, `[]` when the merge failed. -/
def mergedUtterances (e : Except Unit (Option SegmentResult)) : List MUtterance :=
  match e with
  | .ok (some m) => m.utterances
  | _ => []

/-- Merged chapters, `[]` when the merge failed. -/
def mergedChapters (e : Except Unit (Option SegmentResult)) : List Chapter :=
  match e with
  | .ok (some m) => m.chapters
  | _ => []

/-- Merged highlights, `[]` when the merge failed. -/
def mergedHighlights (e : Except Unit (Option SegmentResult)) : List Highlight :=
  match e with
  | .ok (some m) => m.highlights
  | _ => []

/-- Merged text, `""` when the merge failed. -/
def mergedText (e : Except Unit (Option SegmentResult)) : String :=
  match e with
  | .ok (some m) => m.text
  | _ => ""

/-- Merged `audio_duration` (the final `time_offset`), `none` on failure. -/
def mergedAudioDuration (e : Except Unit (Option SegmentResult)) : Option Int :=
  match e with
  | .ok (some m) => m.audio_duration
  | _ => none

/-- The amount `time_offset` grows by for one successful segment result:
its reported `audio_duration` when the field is present, else `0`.
(A reported value of `0` is falsy in Python and also contributes `0`.) -/
def advanceOf (r : SegmentResult) : Int :=
  r.audio_duration.getD 0

/-- The per-segment time offsets produced by folding `advanceOf` from `t`. -/
def offsetsFrom (t : Int) : List SegmentResult → List Int
  | [] => []
  | r :: l => t :: offsetsFrom (t + advanceOf r) l

/-! ### File segmenter (`create_optimal_segments`, lines 117-204) -/

/-- `file_size / (1024 * 1024)` — size of a file in megabytes, over `ℚ`. -/
def fileSizeMB (size : Nat) : ℚ :=
  (size : ℚ) / (1024 * 1024)

/-- Default `target_size_mb = 80`. -/
def target_size_mb : ℚ := 80

/-- `num_segments = math.ceil(file_size_mb / target_size_mb)`. -/
def num_segments (size : Nat) : Nat :=
  (⌈fileSizeMB size / target_size_mb⌉).toNat

/-- One entry of a segmentation plan: the `ffmpeg` slice
`-ss i * segment_duration -t segment_duration` for segment `i`. -/
structure PlannedSegment where
  index : Nat
  startTime : ℚ
  plannedDuration : ℚ
deriving DecidableEq

/-- The planned slices of the split branch: `segment_duration =
total_duration / num_segments`, segment `i` starting at `i * segment_duration`. -/
def splitPlan (size : Nat) (totalDuration : ℚ) : List PlannedSegment :=
  let n := num_segments size
  let d := totalDuration / (n : ℚ)
  (List.range n).map fun i => ⟨i, (i : ℚ) * d, d⟩

/-- Output of the segmenter: either the original file passed through with no
slicing performed, or the planned slices of the split branch. -/
inductive SegmenterOutput
  | single
  | sliced (plan : List PlannedSegment)
deriving DecidableEq

/-- `create_optimal_segments` (lines 117-204), restricted to the plan geometry
with a successfully probed `total_duration`: a file whose size is at or below
`target_size_mb` is returned as a single unsliced file (`return [file_path]`),
otherwise the file is cut into `num_segments` equal planned slices. -/
def create_optimal_segments (size : Nat) (totalDuration : ℚ) : SegmenterOutput :=
  if fileSizeMB size ≤ target_size_mb then .single
  else .sliced (splitPlan size totalDuration)

/-- `segment_count = math.ceil(duration / self.segment_duration)` in
`split_audio_file` (large_file_transcription.py line 118): the count is
computed from the probed duration and the fixed 600 s segment length, not
from the file size. -/
def lf_segment_count (duration : ℚ) : Nat :=
  (⌈duration / (600 : ℚ)⌉).toNat

/-- The planned slices of `split_audio_file` (lines 132-142): slice `i` is
`-ss i * 600 -t 600` — every slice, the last included, is planned at the
full fixed `segment_duration`. -/
def lf_splitPlan (duration : ℚ) : List PlannedSegment :=
  (List.range (lf_segment_count duration)).map fun i => ⟨i, (i : ℚ) * 600, 600⟩

/-- `LargeFileTranscriptionProcessor.split_audio_file` (lines 106-152),
restricted to its plan geometry: an unknown (zero) duration or a count of at
most one yields the unsliced single file, otherwise the fixed-length slices. -/
def split_audio_file (duration : ℚ) : SegmenterOutput :=
  if duration = 0 then .single
  else if lf_segment_count duration ≤ 1 then .single
  else .sliced (lf_splitPlan duration)

/-! ### Upload retry (`upload_file`, lines 206-239) -/

/-- Outcome of one upload attempt as seen by the retry loop: a 200 response
carrying `upload_url`, a non-200 response with its status code, a
`requests.exceptions.Timeout`, or any other exception. -/
inductive AttemptOutcome
  | success (url : String)
  | httpStatus (code : Nat)
  | timeout
  | exceptionRaised
deriving DecidableEq

/-- Whether an attempt outcome is a 200 response (the only case that stops
the loop early). -/
def isSuccess : AttemptOutcome → Bool
  | .success _ => true
  | _ => false

/-- `max_retries = 3` in `upload_file`. -/
def upload_max_retries : Nat := 3

/-- The retry loop of `upload_file`: attempt `idx` observes `outs[idx]`
(defaulting to a timeout when the environment list is short); a 200 response
returns the url together with the number of attempts made, every other
outcome falls through to the next attempt. -/
def uploadAttemptsFrom (outs : List AttemptOutcome) : Nat → Nat → Option String × Nat
  | idx, 0 => (none, idx)
  | idx, n + 1 =>
    match outs.getD idx .timeout with
    | .success url => (some url, idx + 1)
    | _ => uploadAttemptsFrom outs (idx + 1) n

/-- `EnhancedLargeFileProcessor.upload_file` (lines 206-239) over an
environment assigning an outcome to each attempt: returns the upload url of
the first successful attempt (`None` after exhausting `max_retries`) paired
with the number of attempts observed. -/
def upload_file (outs : List AttemptOutcome) : Option String × Nat :=
  uploadAttemptsFrom outs 0 upload_max_retries

/-- Collapse every non-200 outcome to a timeout, keeping successes. -/
def canonFailure : AttemptOutcome → AttemptOutcome
  | .success url => .success url
  | _ => .timeout

/-! ### Final database update of `process_complete_workflow` (lines 442-478) -/

/-- Status written by the workflow's final database update. -/
inductive WfStatus
  | completed
  | error
deriving DecidableEq

/-- The final `update_db` call of the workflow: progress, status and the
optional full `result_data` payload (the merged transcript). -/
structure FinalUpdate where
  progress : Nat
  status : WfStatus
  result : Option SegmentResult
deriving DecidableEq

/-- How `process_complete_workflow` finishes as a function of the merge
outcome: a raised exception reaches the outer handler (`update_db(0,
'error')`), a falsy merged result takes the `update_db(90, 'error')` branch,
and only a truthy merged result is written with `update_db(100, 'completed',
..., merged_result)`. -/
def finalize (m : Except Unit (Option SegmentResult)) : FinalUpdate :=
  match m with
  | .error () => { progress := 0, status := .error, result := none }
  | .ok none => { progress := 90, status := .error, result := none }
  | .ok (some r) => { progress := 100, status := .completed, result := some r }

/-! ### The simpler merge variant
(`LargeFileTranscriptionProcessor.merge_segment_results`, lines 269-320,
and `_process_segments`, lines 348-395) -/

/-- A segment result as consumed by `merge_segment_results`: text plus
word-level and utterance-level timestamped items. -/
structure LfResult where
  text : String
  words : List MUtterance
  utterances : List MUtterance
deriving DecidableEq

/-- `self.segment_duration = 600` — the fixed planned segment length. -/
def lf_segment_duration : Int := 600

/-- The merged dictionary built by `merge_segment_results`; its
`audio_duration` field is the final `time_offset` of the loop and doubles as
the running offset during the fold. -/
structure LfMerged where
  text : String
  words : List MUtterance
  utterances : List MUtterance
  audio_duration : Int
deriving DecidableEq

/-- One iteration of the `for i, result in enumerate(segment_results)` loop
in `merge_segment_results`: falsy results are skipped (`continue`) without
advancing the offset; a processed result appends its text (space-joined
unless the accumulated text ends in a period), shifts words and utterances by
the current offset, and always advances the offset by the fixed
`segment_duration` — the reported duration of the result is never consulted. -/
def lfMergeStep (acc : LfMerged) (r? : Option LfResult) : LfMerged :=
  match r? with
  | none => acc
  | some r =>
    { text :=
        (if acc.text ≠ "" ∧ ¬ acc.text.endsWith "." then acc.text ++ " " else acc.text) ++ r.text
      words := acc.words ++ r.words.map (shiftUtterance acc.audio_duration)
      utterances := acc.utterances ++ r.utterances.map (shiftUtterance acc.audio_duration)
      audio_duration := acc.audio_duration + lf_segment_duration }

/-- `merge_segment_results` (lines 269-320). -/
def lf_merge_segment_results (rs : List (Option LfResult)) : LfMerged :=
  rs.foldl lfMergeStep { text := "", words := [], utterances := [], audio_duration := 0 }

/-- `_process_segments` (lines 348-395), reduced to its collection and merge
decisions: only successful per-segment outcomes are appended to
`segment_results`; with zero successes it writes an error status and never
calls the merge, otherwise it merges the collected successes. -/
def lf_process_segments (outcomes : List (Option LfResult)) : Except Unit LfMerged :=
  let successes := outcomes.filterMap id
  if successes.isEmpty then .error ()
  else .ok (lf_merge_segment_results (successes.map some))

/-! ### Adaptive polling monitor
(`ComprehensiveLargeFileHandler.monitor_with_adaptive_polling`, lines 234-308) -/

/-- Provider job status as observed by one poll. -/
inductive JobStatus
  | queued
  | processing
  | completed
  | error
deriving DecidableEq

/-- Whether a status is terminal (the monitor returns on it). -/
def isTerminal : JobStatus → Bool
  | .completed => true
  | .error => true
  | _ => false

/-- Order of the job state machine `Queued -> Processing -> terminal`. -/
def statusRank : JobStatus → Nat
  | .queued => 0
  | .processing => 1
  | .completed => 2
  | .error => 2

/-- The progress value the monitor writes for a status observed at poll
number `pc` (lines 257-275): `int(min(40 + pc * 0.1, 50))` while queued,
`int(min(50 + pc * 0.2, 98))` while processing, `100` with the completed
result, `90` on a provider-reported error. -/
def monitorProgress (s : JobStatus) (pc : Nat) : Nat :=
  match s with
  | .queued => (⌊min (40 + (pc : ℚ) / 10) 50⌋).toNat
  | .processing => (⌊min (50 + (pc : ℚ) / 5) 98⌋).toNat
  | .completed => 100
  | .error => 90

/-- The sequence of progress values written across a run of the monitor that
observes the given statuses poll by poll (`poll_count` starting at `0` and
incremented each poll); the monitor stops after the first terminal status. -/
def monitorWritesFrom (pc : Nat) : List JobStatus → List Nat
  | [] => []
  | s :: rest =>
    monitorProgress s pc :: (if isTerminal s then [] else monitorWritesFrom (pc + 1) rest)

/-- Progress writes of a full monitor run starting at `poll_count = 0`. -/
def monitorWrites (trace : List JobStatus) : List Nat :=
  monitorWritesFrom 0 trace

/-! ### Speaker post-processing (`speaker_analysis_core.py`) -/

/-- An AssemblyAI utterance as consumed by `process_speaker_segments`:
`speaker` may be missing (`None`), timestamps are milliseconds. -/
structure RawUtterance where
  speaker : Option String
  text : String
  start : Int
  endTime : Int
  confidence : ℚ
deriving DecidableEq

/-- The fields of the provider payload that `process_speaker_segments`
reads: the utterance list and `audio_duration` (defaulting to `0`). -/
structure TranscriptData where
  utterances : List RawUtterance
  audio_duration : Nat
deriving DecidableEq

/-- `max_valid_time = audio_duration + 5000` (5 second buffer, line 36). -/
def maxValidTime (td : TranscriptData) : Int :=
  (td.audio_duration : Int) + 5000

/-- Speaker-label normalization (lines 76-80): `None`, `''` and `'null'`
become `'UNKNOWN'`. -/
def normalizeSpeaker : Option String → String
  | none => "UNKNOWN"
  | some s => if s = "" ∨ s = "null" then "UNKNOWN" else s

/-- Python's `str.strip()`: drop whitespace from both ends. -/
def pyStrip (s : String) : String :=
  ⟨((s.data.dropWhile Char.isWhitespace).reverse.dropWhile Char.isWhitespace).reverse⟩

/-- The skip conditions of the processing loop (lines 57-73): the stripped
text must have length at least 2, timestamps must satisfy
`0 <= start < end`, and (the buffer bound being always positive) neither
timestamp may exceed `max_valid_time`. -/
def validUtterance (td : TranscriptData) (u : RawUtterance) : Bool :=
  if pyStrip u.text = "" ∨ (pyStrip u.text).length < 2 then false
  else if u.start < 0 ∨ u.endTime < 0 ∨ u.start ≥ u.endTime then false
  else if 0 < maxValidTime td ∧ (u.start > maxValidTime td ∨ u.endTime > maxValidTime td) then
    false
  else true

/-- Two-digit zero padding of `{n:02d}`. -/
def pad2 (n : Nat) : String :=
  if n < 10 then "0" ++ toString n else toString n

/-- `format_timestamp` (lines 9-16): `MM:SS` from milliseconds, `"00:00"`
for a falsy input. -/
def format_timestamp (ms : Int) : String :=
  if ms = 0 then "00:00"
  else pad2 (ms / 60000).toNat ++ ":" ++ pad2 ((ms / 1000) % 60).toNat

/-- The fixed speaker color palette (line 20). -/
def speakerColors : List String :=
  ["#2563eb", "#dc2626", "#059669", "#7c2d12", "#4338ca", "#be185d"]

/-- `get_speaker_color` (lines 18-21): `colors[index % len(colors)]`. -/
def get_speaker_color (k : Nat) : String :=
  speakerColors.getD (k % speakerColors.length) ""

/-- The display name minted for the `k`-th newly seen label:
`f"講者 {chr(65 + counter)}"` (line 84). -/
def speakerDisplayName (k : Nat) : String :=
  "講者 " ++ String.singleton (Char.ofNat (65 + k))

/-- A validated output segment of `process_speaker_segments` (lines 91-100). -/
structure SpeakerSegment where
  speaker : String
  text : String
  start : Int
  endTime : Int
  confidence : ℚ
  startTime : String
  endTimeDisplay : String
  color : String
deriving DecidableEq

/-- The processing loop of `process_speaker_segments` (lines 47-109), with
the insertion-ordered `speaker_map` as an association list and the running
`speaker_counter`; returns the emitted segments together with the final map
and counter. -/
def processFrom (td : TranscriptData) (m : List (String × String)) (c : Nat) :
    List RawUtterance → List SpeakerSegment × List (String × String) × Nat
  | [] => ([], m, c)
  | u :: rest =>
    if validUtterance td u then
      let label := normalizeSpeaker u.speaker
      let m' := if (m.lookup label).isSome then m else m ++ [(label, speakerDisplayName c)]
      let c' := if (m.lookup label).isSome then c else c + 1
      let seg : SpeakerSegment :=
        { speaker := (m'.lookup label).getD ""
          text := pyStrip u.text
          start := u.start
          endTime := u.endTime
          confidence := u.confidence
          startTime := format_timestamp u.start
          endTimeDisplay := format_timestamp u.endTime
          color := get_speaker_color ((m'.map Prod.fst).indexOf label) }
      let rec3 := processFrom td m' c' rest
      (seg :: rec3.1, rec3.2)
    else
      processFrom td m c rest

/-- `process_speaker_segments` (lines 23-115): the emitted segment list. -/
def process_speaker_segments (td : TranscriptData) : List SpeakerSegment :=
  (processFrom td [] 0 td.utterances).1

/-- The final `speaker_map` built during `process_speaker_segments`. -/
def finalSpeakerMap (td : TranscriptData) : List (String × String) :=
  (processFrom td [] 0 td.utterances).2.1

/-- Normalized labels of the utterances that survive validation, in order. -/
def validLabels (td : TranscriptData) : List String :=
  (td.utterances.filter (validUtterance td)).map fun u => normalizeSpeaker u.speaker

/-- Distinct elements of a list in order of first appearance, relative to an
already-seen set. -/
def firstAppear (seen : List String) : List String → List String
  | [] => []
  | a :: l => if a ∈ seen then firstAppear seen l else a :: firstAppear (a :: seen) l

/-- Pair each label with the display name of its rank, starting at `c`. -/
def namedFrom (c : Nat) : List String → List (String × String)
  | [] => []
  | a :: l => (a, speakerDisplayName c) :: namedFrom (c + 1) l

/-! ### Derived specifications and concrete payloads used by the theorems -/

/-- The boundary marker plus text contributed by segment number `k`
(0-based): `f"[段落 {k+1}]\n{segment_text}"`. -/
def segMarker (k : Nat) (r : SegmentResult) : String :=
  "[段落 " ++ toString (k + 1) ++ "]\n" ++ r.text

/-- The expected merged text of a run of nonempty segment texts starting at
segment number `k`: marker-prefixed texts joined by blank lines. -/
def joinedMarkersFrom (k : Nat) : List SegmentResult → String
  | [] => ""
  | [r] => segMarker k r
  | r :: rest => segMarker k r ++ "\n\n" ++ joinedMarkersFrom (k + 1) rest

/-- Modelled from the spec: a direct (unsegmented) run on the same file —
absent from `src/` as a separate code path — returns the provider's
transcript for the whole file unchanged, so the reference MergedTranscript
of the single-segment case is the partial itself. -/
def directRunResult (r : SegmentResult) : SegmentResult := r

/-- A segment result with no timestamped content and a reported duration of
10000 ms. -/
def segPlain (t : String) : SegmentResult :=
  { text := t, utterances := [], confidence := 1, audio_duration := some 10000,
    highlights := [], chapters := [], sentiments := [], entities := [],
    content_safety := none }

/-- A segment result holding one utterance with segment-local timestamps
`[0, 500)`, with a reported duration of 10000 ms. -/
def segWithUtterance (t : String) : SegmentResult :=
  { text := t,
    utterances := [{ speaker := "A", text := "hello", start := 0, endTime := 500, confidence := 1 }],
    confidence := 1, audio_duration := some 10000, highlights := [], chapters := [],
    sentiments := [], entities := [], content_safety := none }

/-- A segment result carrying one highlight at `[0, 500)` and one chapter at
`[0, 400)`, with no reported duration. -/
def segWithHighlight : SegmentResult :=
  { text := "beta",
    utterances := [{ speaker := "A", text := "x", start := 0, endTime := 500, confidence := 1 }],
    confidence := 1, audio_duration := none,
    highlights := [{ text := "kw", timestamps := [{ start := 0, endTime := 500 }] }],
    chapters := [{ headline := "ch", start := 0, endTime := 400 }],
    sentiments := [], entities := [], content_safety := none }

/-- A segment result whose reported `audio_duration` is absent. -/
def segNoReport : SegmentResult :=
  { text := "one", utterances := [], confidence := 1, audio_duration := none,
    highlights := [], chapters := [], sentiments := [], entities := [],
    content_safety := none }

/-- The failing input of the offset-accounting analysis: three planned
segments of 10000 ms each, segment 2 failed (`None`), segments 1 and 3
successful with reported durations of 10000 ms. -/
def dropSecondInput : List (Option SegmentResult) :=
  [some (segPlain "first"), none, some (segWithUtterance "third")]

/-- The status trace refuting unconditional progress monotonicity: 206 polls
observing `processing` followed by a provider-reported `error`. -/
def longErrorTrace : List JobStatus :=
  List.replicate 206 JobStatus.processing ++ [JobStatus.error]

/-- The canonical five-poll trace of §8 of the specification. -/
def fivePollTrace : List JobStatus :=
  [JobStatus.queued, JobStatus.queued, JobStatus.processing,
   JobStatus.processing, JobStatus.completed]

/-- A transcript payload with one valid utterance, one too-short utterance,
one with inverted timestamps, and one exceeding the duration buffer. -/
def speakerExample : TranscriptData :=
  { utterances :=
      [{ speaker := some "S1", text := " 你好嗎 ", start := 0, endTime := 900, confidence := 1 },
       { speaker := some "S2", text := "x", start := 900, endTime := 1500, confidence := 1 },
       { speaker := some "S1", text := "again", start := 2000, endTime := 1500, confidence := 1 },
       { speaker := some "S2", text := "late words", start := 90000, endTime := 99000, confidence := 1 },
       { speaker := none, text := "tail part", start := 1500, endTime := 2500, confidence := 1 }],
    audio_duration := 60000 }

/-- The first output segment expected for `speakerExample`. -/
def speakerSegExpected : SpeakerSegment :=
  { speaker := "講者 A", text := "你好嗎", start := 0, endTime := 900, confidence := 1,
    startTime := "00:00", endTimeDisplay := "00:00", color := "#2563eb" }

/-- A segment result for the simpler merge variant, holding one utterance. -/
def lfExample : LfResult :=
  { text := "piece",
    words := [],
    utterances := [{ speaker := "A", text := "w", start := 0, endTime := 300, confidence := 1 }] }

/-! ### Helper lemmas -/

theorem truthySegments_map_some (rs : List SegmentResult) :
    truthySegments (rs.map some) = rs := by
  induction rs with
  | nil => rfl
  | cons a l ih =>
    unfold truthySegments at *
    simp [List.filterMap_cons, ih]

theorem filterMap_id_of_all_none {α : Type} (rs : List (Option α))
    (h : ∀ r ∈ rs, r = none) : rs.filterMap id = [] := by
  induction rs with
  | nil => rfl
  | cons a l ih =>
    have ha := h a (List.mem_cons_self a l)
    subst ha
    simpa [List.filterMap_cons] using ih fun r hr => h r (List.mem_cons_of_mem _ hr)

/-- `time_offset` grows by `advanceOf r` across one successful merge step. -/
theorem mergeStep_timeOffset (i : Nat) (acc : MergeAcc) (r : SegmentResult) :
    (mergeStep i acc (some r)).timeOffset = acc.timeOffset + advanceOf r := by
  unfold mergeStep advanceOf
  cases h : r.audio_duration with
  | none => simp [h]
  | some d =>
    by_cases hd : d = 0 <;> simp [h, hd]

/-- The text built by one successful merge step, as one append of the
previous text (with separator) and the marker-prefixed segment text. -/
theorem mergeStep_text (k : Nat) (acc : MergeAcc) (r : SegmentResult) (hr : r.text ≠ "") :
    (mergeStep k acc (some r)).text =
      (if acc.text = "" then "" else acc.text ++ "\n\n") ++ segMarker k r := by
  by_cases ha : acc.text = ""
  · simp [mergeStep, hr, ha, segMarker, String.append_assoc]
  · simp [mergeStep, hr, ha, segMarker, String.append_assoc]
    rw [← String.append_assoc "\n\n" "[段落 "]
    rfl

/-- A successful merge step never leaves the accumulated text empty: it
always contains the boundary marker. -/
theorem mergeStep_text_ne (k : Nat) (acc : MergeAcc) (r : SegmentResult) (hr : r.text ≠ "") :
    (mergeStep k acc (some r)).text ≠ "" := by
  rw [mergeStep_text k acc r hr]
  intro hcontra
  have hlen := congrArg String.length hcontra
  have h4 : ("[段落 " : String).length = 4 := rfl
  have h0 : ("" : String).length = 0 := rfl
  simp only [segMarker, String.length_append, h4, h0] at hlen
  omega

/-- Utterances accumulated by the merge loop over successful results: each
segment's utterances shifted by the prefix-sum offset of the reported
durations before it. -/
theorem mergeLoopFrom_utterances (rs : List SegmentResult) :
    ∀ (k : Nat) (acc : MergeAcc),
      (mergeLoopFrom k acc (rs.map some)).utterances =
        acc.utterances ++ (rs.zip (offsetsFrom acc.timeOffset rs)).flatMap
          (fun p => p.1.utterances.map (shiftUtterance p.2)) := by
  induction rs with
  | nil => intro k acc; simp [mergeLoopFrom, offsetsFrom]
  | cons r l ih =>
    intro k acc
    show (mergeLoopFrom (k + 1) (mergeStep k acc (some r)) (l.map some)).utterances = _
    rw [ih]
    have h1 : (mergeStep k acc (some r)).utterances =
        acc.utterances ++ r.utterances.map (shiftUtterance acc.timeOffset) := rfl
    rw [h1, mergeStep_timeOffset]
    simp [offsetsFrom, List.flatMap_cons]

/-- Chapters accumulated by the merge loop, shifted like utterances. -/
theorem mergeLoopFrom_chapters (rs : List SegmentResult) :
    ∀ (k : Nat) (acc : MergeAcc),
      (mergeLoopFrom k acc (rs.map some)).chapters =
        acc.chapters ++ (rs.zip (offsetsFrom acc.timeOffset rs)).flatMap
          (fun p => p.1.chapters.map (shiftChapter p.2)) := by
  induction rs with
  | nil => intro k acc; simp [mergeLoopFrom, offsetsFrom]
  | cons r l ih =>
    intro k acc
    show (mergeLoopFrom (k + 1) (mergeStep k acc (some r)) (l.map some)).chapters = _
    rw [ih]
    have h1 : (mergeStep k acc (some r)).chapters =
        acc.chapters ++ r.chapters.map (shiftChapter acc.timeOffset) := rfl
    rw [h1, mergeStep_timeOffset]
    simp [offsetsFrom, List.flatMap_cons]

/-- Highlights accumulated by the merge loop: plain concatenation, no
timestamp adjustment. -/
theorem mergeLoopFrom_highlights (rs : List SegmentResult) :
    ∀ (k : Nat) (acc : MergeAcc),
      (mergeLoopFrom k acc (rs.map some)).highlights =
        acc.highlights ++ rs.flatMap SegmentResult.highlights := by
  induction rs with
  | nil => intro k acc; simp [mergeLoopFrom]
  | cons r l ih =>
    intro k acc
    show (mergeLoopFrom (k + 1) (mergeStep k acc (some r)) (l.map some)).highlights = _
    rw [ih]
    have h1 : (mergeStep k acc (some r)).highlights = acc.highlights ++ r.highlights := rfl
    rw [h1]
    simp [List.flatMap_cons]

/-- Final `time_offset` of the merge loop over successful results: the sum
of the reported (present) durations, missing reports contributing zero. -/
theorem mergeLoopFrom_timeOffset (rs : List SegmentResult) :
    ∀ (k : Nat) (acc : MergeAcc),
      (mergeLoopFrom k acc (rs.map some)).timeOffset =
        acc.timeOffset + (rs.map advanceOf).sum := by
  induction rs with
  | nil => intro k acc; simp [mergeLoopFrom]
  | cons r l ih =>
    intro k acc
    show (mergeLoopFrom (k + 1) (mergeStep k acc (some r)) (l.map some)).timeOffset = _
    rw [ih, mergeStep_timeOffset]
    simp [add_assoc]

/-- Text accumulated by the merge loop over successful results with
nonempty texts: the marker-prefixed texts joined by blank lines, behind the
previous accumulated text. -/
theorem mergeLoopFrom_text (rs : List SegmentResult) :
    ∀ (k : Nat) (acc : MergeAcc), (∀ r ∈ rs, r.text ≠ "") →
      (mergeLoopFrom k acc (rs.map some)).text =
        if rs.isEmpty then acc.text
        else (if acc.text = "" then "" else acc.text ++ "\n\n") ++ joinedMarkersFrom k rs := by
  induction rs with
  | nil => intro k acc _; simp [mergeLoopFrom]
  | cons r l ih =>
    intro k acc hne
    have hr : r.text ≠ "" := hne r (List.mem_cons_self _ _)
    have hl : ∀ x ∈ l, x.text ≠ "" := fun x hx => hne x (List.mem_cons_of_mem _ hx)
    show (mergeLoopFrom (k + 1) (mergeStep k acc (some r)) (l.map some)).text = _
    rw [ih (k + 1) _ hl]
    cases l with
    | nil =>
      simp only [List.isEmpty_nil, if_true, List.isEmpty_cons]
      rw [mergeStep_text k acc r hr]
      simp [joinedMarkersFrom]
    | cons b m =>
      have hne' : (mergeStep k acc (some r)).text ≠ "" := mergeStep_text_ne k acc r hr
      simp only [List.isEmpty_cons, if_neg, Bool.false_eq_true, hne', if_false]
      rw [mergeStep_text k acc r hr]
      have hjoin : joinedMarkersFrom k (r :: b :: m) =
          segMarker k r ++ "\n\n" ++ joinedMarkersFrom (k + 1) (b :: m) := rfl
      rw [hjoin]
      by_cases ha : acc.text = "" <;> simp [ha, String.append_assoc]

/-! ### C1 -/

/-- C1: evaluating `merge_segment_transcriptions` at three planned segments
of 10000 ms each where segment 2 failed: the failed segment advances no
offset, so segment 3's sole utterance lands at absolute start 10000, below
the 20000 required by the claim. -/
theorem merge_failed_segment_keeps_offset :
    mergedUtteranceStarts (merge_segment_transcriptions dropSecondInput) = [10000] ∧
      (10000 : Int) < 20000 := by
  constructor
  · rfl
  · decide

/-! ### C2 -/

/-- C2: when no segment produced a successful partial, the enhanced merge
yields no merged transcript (it returns `None` or raises on the zero-count
confidence mean), the workflow's final database update carries an error
status with no `result_data`, and `_process_segments` of the simpler variant
errors out before ever calling its merge. -/
theorem merge_zero_success_fails_without_write
    (rs : List (Option SegmentResult)) (outs : List (Option LfResult))
    (h1 : ∀ r ∈ rs, r = none) (h2 : ∀ r ∈ outs, r = none) :
    (finalize (merge_segment_transcriptions rs)).result = none ∧
      (finalize (merge_segment_transcriptions rs)).status = WfStatus.error ∧
      lf_process_segments outs = .error () := by
  refine ⟨?_, ?_, ?_⟩ <;>
    first
    | · match rs, h1 with
        | [], _ => rfl
        | [r?], h1 =>
          have := h1 r? (List.mem_cons_self _ _)
          subst this
          rfl
        | a :: b :: l, h1 =>
          have hz : truthySegments (a :: b :: l) = [] := filterMap_id_of_all_none _ h1
          simp [merge_segment_transcriptions, hz, finalize]
    | · unfold lf_process_segments
        simp [filterMap_id_of_all_none outs h2]

/-- Witness for C2 at the concrete input `[none, none]` / `[none]`. -/
theorem merge_zero_success_fails_without_write_witness :
    (finalize (merge_segment_transcriptions [none, none])).result = none ∧
      (finalize (merge_segment_transcriptions [none, none])).status = WfStatus.error ∧
      lf_process_segments [none] = .error () :=
  merge_zero_success_fails_without_write [none, none] [none]
    (by intro r hr; simp only [List.mem_cons, List.not_mem_nil, or_false] at hr
        rcases hr with h | h <;> exact h)
    (by intro r hr; simp only [List.mem_cons, List.not_mem_nil, or_false] at hr
        exact hr)

/-! ### C3 counterexample -/

/-- C3 is false as stated: merging a 10000 ms segment followed by a segment
carrying a highlight at local `[0, 500)` shifts the second segment's chapter
to 10000 but leaves the highlight's timestamps at 0 — highlight timestamps
are concatenated without being shifted by the current `time_offset`. -/
theorem merge_highlights_not_shifted_cex :
    mergedHighlights (merge_segment_transcriptions
        [some (segPlain "alpha"), some segWithHighlight]) =
      [{ text := "kw", timestamps := [{ start := 0, endTime := 500 }] }] ∧
      mergedChapters (merge_segment_transcriptions
        [some (segPlain "alpha"), some segWithHighlight]) =
      [{ headline := "ch", start := 10000, endTime := 10400 }] ∧
      ¬ ((0 : Int) = 0 + 10000) := by
  refine ⟨rfl, rfl, by decide⟩

/-- The two-or-more-results branch of `merge_segment_transcriptions`,
written out with the loop accumulator. -/
theorem merge_cons_cons (x y : Option SegmentResult) (zs : List (Option SegmentResult)) :
    merge_segment_transcriptions (x :: y :: zs) =
      if (truthySegments (x :: y :: zs)).length = 0 then .error ()
      else .ok (some
        { text := (mergeLoopFrom 0 initAcc (x :: y :: zs)).text
          utterances := (mergeLoopFrom 0 initAcc (x :: y :: zs)).utterances
          confidence := ((truthySegments (x :: y :: zs)).map (·.confidence)).sum /
            ((truthySegments (x :: y :: zs)).length : ℚ)
          audio_duration := some (mergeLoopFrom 0 initAcc (x :: y :: zs)).timeOffset
          highlights := (mergeLoopFrom 0 initAcc (x :: y :: zs)).highlights
          chapters := (mergeLoopFrom 0 initAcc (x :: y :: zs)).chapters
          sentiments := (mergeLoopFrom 0 initAcc (x :: y :: zs)).sentiments
          entities := (mergeLoopFrom 0 initAcc (x :: y :: zs)).entities
          content_safety :=
            match (x :: y :: zs).head? with
            | some (some r) => r.content_safety
            | _ => none }) := by
  rfl

/-! ### C3 amended -/

/-- C3 (amended): in a multi-segment merge, each successful segment's text
is appended behind its `[段落 i]` boundary marker, its utterance and chapter
timestamps are shifted by the accumulated `time_offset`, but its highlight
items are concatenated without any timestamp adjustment. -/
theorem merge_marker_shift_concat (rs : List SegmentResult) (h2 : 2 ≤ rs.length)
    (htext : ∀ r ∈ rs, r.text ≠ "") :
    mergedUtterances (merge_segment_transcriptions (rs.map some)) =
      (rs.zip (offsetsFrom 0 rs)).flatMap
        (fun p => p.1.utterances.map (shiftUtterance p.2)) ∧
      mergedChapters (merge_segment_transcriptions (rs.map some)) =
      (rs.zip (offsetsFrom 0 rs)).flatMap
        (fun p => p.1.chapters.map (shiftChapter p.2)) ∧
      mergedHighlights (merge_segment_transcriptions (rs.map some)) =
      rs.flatMap SegmentResult.highlights ∧
      mergedText (merge_segment_transcriptions (rs.map some)) = joinedMarkersFrom 0 rs := by
  match rs, h2, htext with
  | a :: b :: m, _, htext =>
    rw [show (a :: b :: m).map some = some a :: some b :: m.map some from rfl,
      merge_cons_cons]
    have hsucc : truthySegments (some a :: some b :: m.map some) = a :: b :: m :=
      truthySegments_map_some (a :: b :: m)
    rw [hsucc]
    rw [if_neg (by simp)]
    refine ⟨?_, ?_, ?_, ?_⟩
    · show (mergeLoopFrom 0 initAcc ((a :: b :: m).map some)).utterances = _
      rw [mergeLoopFrom_utterances]
      simp [initAcc]
    · show (mergeLoopFrom 0 initAcc ((a :: b :: m).map some)).chapters = _
      rw [mergeLoopFrom_chapters]
      simp [initAcc]
    · show (mergeLoopFrom 0 initAcc ((a :: b :: m).map some)).highlights = _
      rw [mergeLoopFrom_highlights]
      simp [initAcc]
    · show (mergeLoopFrom 0 initAcc ((a :: b :: m).map some)).text = _
      rw [mergeLoopFrom_text _ 0 initAcc htext]
      simp [initAcc]

/-- Witness for the amended C3 at a two-segment merge carrying a highlight. -/
theorem merge_marker_shift_concat_witness :
    mergedHighlights (merge_segment_transcriptions
        ([segPlain "alpha", segWithHighlight].map some)) =
      [segPlain "alpha", segWithHighlight].flatMap SegmentResult.highlights ∧
      mergedText (merge_segment_transcriptions
        ([segPlain "alpha", segWithHighlight].map some)) =
      joinedMarkersFrom 0 [segPlain "alpha", segWithHighlight] :=
  ⟨(merge_marker_shift_concat [segPlain "alpha", segWithHighlight]
      (by decide) (by decide)).2.2.1,
   (merge_marker_shift_concat [segPlain "alpha", segWithHighlight]
      (by decide) (by decide)).2.2.2⟩

/-! ### C4 amended -/

/-- Final offset of the simpler merge variant: a constant
`segment_duration` per processed result. -/
theorem lf_foldl_duration (ls : List LfResult) :
    ∀ acc : LfMerged,
      ((ls.map some).foldl lfMergeStep acc).audio_duration =
        acc.audio_duration + lf_segment_duration * ls.length := by
  induction ls with
  | nil => intro acc; simp
  | cons r l ih =>
    intro acc
    show ((l.map some).foldl lfMergeStep (lfMergeStep acc (some r))).audio_duration = _
    rw [ih]
    have hstep : (lfMergeStep acc (some r)).audio_duration =
        acc.audio_duration + lf_segment_duration := rfl
    rw [hstep]
    push_cast [List.length_cons]
    ring

/-- C4 (amended): after a successful segment the enhanced merge advances
`time_offset` by the reported `audio_duration` when the field is present and
truthy, and by nothing at all when it is absent (never by the planned
duration); the simpler merge variant always advances by the fixed configured
`segment_duration`, ignoring the reported duration entirely. -/
theorem merge_offset_reported_only (rs : List SegmentResult) (h2 : 2 ≤ rs.length)
    (ls : List LfResult) :
    mergedAudioDuration (merge_segment_transcriptions (rs.map some)) =
      some ((rs.map advanceOf).sum) ∧
      (lf_merge_segment_results (ls.map some)).audio_duration =
      lf_segment_duration * ls.length := by
  constructor
  · match rs, h2 with
    | a :: b :: m, _ =>
      rw [show (a :: b :: m).map some = some a :: some b :: m.map some from rfl,
        merge_cons_cons]
      have hsucc : truthySegments (some a :: some b :: m.map some) = a :: b :: m :=
        truthySegments_map_some (a :: b :: m)
      rw [hsucc]
      rw [if_neg (by simp)]
      show some (mergeLoopFrom 0 initAcc ((a :: b :: m).map some)).timeOffset = _
      rw [mergeLoopFrom_timeOffset]
      simp [initAcc]
  · unfold lf_merge_segment_results
    rw [lf_foldl_duration]
    simp

/-- Witness for the amended C4: one absent and one present report, plus the
fixed-duration variant at a single result. -/
theorem merge_offset_reported_only_witness :
    mergedAudioDuration (merge_segment_transcriptions
        ([segNoReport, segPlain "p"].map some)) =
      some (([segNoReport, segPlain "p"].map advanceOf).sum) ∧
      (lf_merge_segment_results ([lfExample].map some)).audio_duration =
      lf_segment_duration * ([lfExample] : List LfResult).length :=
  ⟨(merge_offset_reported_only [segNoReport, segPlain "p"] (by decide) [lfExample]).1,
   (merge_offset_reported_only [segNoReport, segPlain "p"] (by decide) [lfExample]).2⟩

/-! ### C4 counterexample -/

/-- C4 is false as stated: when a successful segment (planned duration
10000 ms) reports no `audio_duration`, the merge advances `time_offset` by
nothing at all rather than by the planned duration, so the next segment's
utterance keeps start 0. -/
theorem merge_offset_no_planned_fallback_cex :
    mergedUtteranceStarts (merge_segment_transcriptions
        [some segNoReport, some (segWithUtterance "two")]) = [0] ∧
      (0 : Int) ≠ 10000 := by
  refine ⟨rfl, by decide⟩

/-! ### C6 counterexample -/

/-- C6 is false as stated: an upload whose first attempt receives a
well-formed 400 response is retried — the second attempt runs and returns a
handle after 2 attempts, instead of short-circuiting to a failure after 1. -/
theorem upload_retries_4xx_cex :
    upload_file [AttemptOutcome.httpStatus 400, AttemptOutcome.success "u2"] =
      (some "u2", 2) ∧
      upload_file [AttemptOutcome.httpStatus 400, AttemptOutcome.success "u2"] ≠
      (none, 1) := by
  refine ⟨rfl, by decide⟩

/-! ### C6 amended -/

/-- `getD` of a canonicalized outcome list, with the timeout default. -/
theorem getD_map_canonFailure (outs : List AttemptOutcome) :
    ∀ i : Nat, (outs.map canonFailure).getD i .timeout =
      canonFailure (outs.getD i .timeout) := by
  induction outs with
  | nil => intro i; rfl
  | cons a l ih =>
    intro i
    cases i with
    | zero => rfl
    | succ j =>
      show (l.map canonFailure).getD j .timeout = canonFailure (l.getD j .timeout)
      exact ih j

/-- The retry loop is blind to the kind of a failed attempt. -/
theorem uploadAttemptsFrom_map_canon (outs : List AttemptOutcome) :
    ∀ (n idx : Nat),
      uploadAttemptsFrom (outs.map canonFailure) idx n = uploadAttemptsFrom outs idx n := by
  intro n
  induction n with
  | zero => intro idx; rfl
  | succ m ih =>
    intro idx
    unfold uploadAttemptsFrom
    rw [getD_map_canonFailure]
    cases h : outs.getD idx .timeout <;> simp [canonFailure, ih]

/-- C6 (amended): `upload_file` never short-circuits on a well-formed 4xx
response — every non-200 outcome, whether a 4xx/5xx response, a connection
timeout or another exception, is treated identically by the bounded retry
loop, so the upload's result is unchanged when every failure is replaced by
a plain timeout. -/
theorem upload_failure_kind_irrelevant (outs : List AttemptOutcome) :
    upload_file (outs.map canonFailure) = upload_file outs := by
  unfold upload_file
  exact uploadAttemptsFrom_map_canon outs upload_max_retries 0

/-! ### C7 -/

/-- A first success at relative position `k` stops the loop with `idx+k+1`
attempts made. -/
theorem uploadAttemptsFrom_first_success (outs : List AttemptOutcome) (url : String) :
    ∀ (k idx n : Nat), k < n →
      outs.getD (idx + k) .timeout = .success url →
      (∀ j, j < k → isSuccess (outs.getD (idx + j) .timeout) = false) →
      uploadAttemptsFrom outs idx n = (some url, idx + k + 1) := by
  intro k
  induction k with
  | zero =>
    intro idx n hn hs _
    match n, hn with
    | m + 1, _ =>
      unfold uploadAttemptsFrom
      rw [Nat.add_zero] at hs
      rw [hs]
  | succ kk ih =>
    intro idx n hn hs hfail
    match n, hn with
    | m + 1, hn =>
      have h0 : isSuccess (outs.getD idx .timeout) = false := by
        simpa using hfail 0 (Nat.succ_pos kk)
      unfold uploadAttemptsFrom
      cases hx : outs.getD idx .timeout
      case success u => rw [hx] at h0; simp [isSuccess] at h0
      all_goals {
        show uploadAttemptsFrom outs (idx + 1) m = (some url, idx + (kk + 1) + 1)
        rw [ih (idx + 1) m (by omega)
          (by rw [show idx + 1 + kk = idx + (kk + 1) from by omega]; exact hs)
          (fun j hj => by
            rw [show idx + 1 + j = idx + (j + 1) from by omega]
            exact hfail (j + 1) (by omega))]
        exact congrArg (Prod.mk (some url)) (by omega)
      }

/-- Exhausting the loop without a success returns no handle after exactly
`idx + n` attempts. -/
theorem uploadAttemptsFrom_exhaust (outs : List AttemptOutcome) :
    ∀ (n idx : Nat),
      (∀ j, j < n → isSuccess (outs.getD (idx + j) .timeout) = false) →
      uploadAttemptsFrom outs idx n = (none, idx + n) := by
  intro n
  induction n with
  | zero => intro idx _; rfl
  | succ m ih =>
    intro idx hfail
    have h0 : isSuccess (outs.getD idx .timeout) = false := by
      simpa using hfail 0 (Nat.succ_pos m)
    unfold uploadAttemptsFrom
    cases hx : outs.getD idx .timeout
    case success u => rw [hx] at h0; simp [isSuccess] at h0
    all_goals {
      show uploadAttemptsFrom outs (idx + 1) m = (none, idx + (m + 1))
      rw [ih (idx + 1) (fun j hj => by
        rw [show idx + 1 + j = idx + (j + 1) from by omega]
        exact hfail (j + 1) (by omega))]
      exact congrArg (Prod.mk none) (by omega)
    }

/-- C7: the bounded upload retry loop returns the handle of the first
successful attempt, having made exactly `k+1` attempts when the first
success is attempt index `k`; with no success within `max_retries` attempts
it returns no handle (the `UploadError` outcome) after exactly
`max_retries` attempts. -/
theorem upload_first_success_and_exhaustion (outs : List AttemptOutcome) :
    (∀ url k, k < upload_max_retries →
        outs.getD k .timeout = .success url →
        (∀ j, j < k → isSuccess (outs.getD j .timeout) = false) →
        upload_file outs = (some url, k + 1)) ∧
      ((∀ j, j < upload_max_retries → isSuccess (outs.getD j .timeout) = false) →
        upload_file outs = (none, upload_max_retries)) := by
  constructor
  · intro url k hk hs hf
    have := uploadAttemptsFrom_first_success outs url k 0 upload_max_retries hk
      (by simpa using hs) (by simpa using hf)
    simpa [upload_file] using this
  · intro hf
    have := uploadAttemptsFrom_exhaust outs upload_max_retries 0 (by simpa using hf)
    simpa [upload_file] using this

/-- Witness for C7: attempts 1 and 2 time out, attempt 3 succeeds — the
upload returns the handle after exactly 3 attempts. -/
theorem upload_first_success_witness :
    upload_file [AttemptOutcome.timeout, AttemptOutcome.timeout,
      AttemptOutcome.success "u3"] = (some "u3", 3) :=
  (upload_first_success_and_exhaustion _).1 "u3" 2 (by decide) rfl (by decide)

/-! ### C5 -/

/-- The queued-phase progress estimate never exceeds its cap of 50. -/
theorem monitorProgress_queued_le (pc : Nat) : monitorProgress .queued pc ≤ 50 := by
  have h1 : ⌊min (40 + (pc : ℚ) / 10) 50⌋ ≤ 50 := by
    have hle : min (40 + (pc : ℚ) / 10) 50 ≤ 50 := min_le_right _ _
    calc ⌊min (40 + (pc : ℚ) / 10) 50⌋ ≤ ⌊(50 : ℚ)⌋ := Int.floor_le_floor hle
      _ = 50 := by norm_num
  show (⌊min (40 + (pc : ℚ) / 10) 50⌋).toNat ≤ 50
  omega

/-- The processing-phase progress estimate starts at or above 50. -/
theorem monitorProgress_processing_ge (pc : Nat) : 50 ≤ monitorProgress .processing pc := by
  have h1 : (50 : ℤ) ≤ ⌊min (50 + (pc : ℚ) / 5) 98⌋ := by
    apply Int.le_floor.mpr
    push_cast
    apply le_min
    · have : (0 : ℚ) ≤ (pc : ℚ) / 5 := by positivity
      linarith
    · norm_num
  show 50 ≤ (⌊min (50 + (pc : ℚ) / 5) 98⌋).toNat
  omega

/-- The processing-phase progress estimate never exceeds its cap of 98. -/
theorem monitorProgress_processing_le (pc : Nat) : monitorProgress .processing pc ≤ 98 := by
  have h1 : ⌊min (50 + (pc : ℚ) / 5) 98⌋ ≤ 98 := by
    have hle : min (50 + (pc : ℚ) / 5) 98 ≤ 98 := min_le_right _ _
    calc ⌊min (50 + (pc : ℚ) / 5) 98⌋ ≤ ⌊(98 : ℚ)⌋ := Int.floor_le_floor hle
      _ = 98 := by norm_num
  show (⌊min (50 + (pc : ℚ) / 5) 98⌋).toNat ≤ 98
  omega

/-- The queued-phase estimate is non-decreasing in the poll count. -/
theorem monitorProgress_queued_mono {pc pc' : Nat} (h : pc ≤ pc') :
    monitorProgress .queued pc ≤ monitorProgress .queued pc' := by
  have hq : (pc : ℚ) ≤ (pc' : ℚ) := by exact_mod_cast h
  have h1 : ⌊min (40 + (pc : ℚ) / 10) 50⌋ ≤ ⌊min (40 + (pc' : ℚ) / 10) 50⌋ := by
    apply Int.floor_le_floor
    gcongr
  show (⌊min (40 + (pc : ℚ) / 10) 50⌋).toNat ≤ (⌊min (40 + (pc' : ℚ) / 10) 50⌋).toNat
  omega

/-- The processing-phase estimate is non-decreasing in the poll count. -/
theorem monitorProgress_processing_mono {pc pc' : Nat} (h : pc ≤ pc') :
    monitorProgress .processing pc ≤ monitorProgress .processing pc' := by
  have hq : (pc : ℚ) ≤ (pc' : ℚ) := by exact_mod_cast h
  have h1 : ⌊min (50 + (pc : ℚ) / 5) 98⌋ ≤ ⌊min (50 + (pc' : ℚ) / 5) 98⌋ := by
    apply Int.floor_le_floor
    gcongr
  show (⌊min (50 + (pc : ℚ) / 5) 98⌋).toNat ≤ (⌊min (50 + (pc' : ℚ) / 5) 98⌋).toNat
  omega

/-- A non-terminal poll always writes a progress value strictly below 100. -/
theorem monitorProgress_lt_100 (s : JobStatus) (pc : Nat) (hs : isTerminal s = false) :
    monitorProgress s pc < 100 := by
  cases s with
  | queued => have := monitorProgress_queued_le pc; omega
  | processing => have := monitorProgress_processing_le pc; omega
  | completed => simp [isTerminal] at hs
  | error => simp [isTerminal] at hs

/-- The monitor writes 100 exactly for the completed status. -/
theorem monitorProgress_eq_100_iff (s : JobStatus) (pc : Nat) :
    monitorProgress s pc = 100 ↔ s = .completed := by
  cases s with
  | queued =>
    have := monitorProgress_queued_le pc
    constructor
    · intro h; omega
    · intro h; cases h
  | processing =>
    have := monitorProgress_processing_le pc
    constructor
    · intro h; omega
    · intro h; cases h
  | completed => simp [monitorProgress]
  | error => simp [monitorProgress]

/-- Across one valid poll transition (no error), the written progress does
not decrease. -/
theorem monitorProgress_step_le (s s2 : JobStatus) (pc : Nat)
    (h12 : statusRank s ≤ statusRank s2) (hs : isTerminal s = false)
    (hs2 : s2 ≠ .error) : monitorProgress s pc ≤ monitorProgress s2 (pc + 1) := by
  cases s with
  | queued =>
    cases s2 with
    | queued => exact monitorProgress_queued_mono (Nat.le_succ pc)
    | processing =>
      exact le_trans (monitorProgress_queued_le pc) (monitorProgress_processing_ge (pc + 1))
    | completed =>
      have := monitorProgress_queued_le pc
      show monitorProgress .queued pc ≤ 100
      omega
    | error => exact absurd rfl hs2
  | processing =>
    cases s2 with
    | queued => simp [statusRank] at h12
    | processing => exact monitorProgress_processing_mono (Nat.le_succ pc)
    | completed =>
      have := monitorProgress_processing_le pc
      show monitorProgress .processing pc ≤ 100
      omega
    | error => exact absurd rfl hs2
  | completed => simp [isTerminal] at hs
  | error => simp [isTerminal] at hs

/-- Every write of a monitor run is the progress value of some observed
status at some poll count. -/
theorem monitorWritesFrom_mem (t : List JobStatus) :
    ∀ (pc : Nat) (w : Nat), w ∈ monitorWritesFrom pc t →
      ∃ s ∈ t, ∃ k, w = monitorProgress s k := by
  induction t with
  | nil => intro pc w hw; simp [monitorWritesFrom] at hw
  | cons s rest ih =>
    intro pc w hw
    rw [show monitorWritesFrom pc (s :: rest) =
      monitorProgress s pc ::
        (if isTerminal s then [] else monitorWritesFrom (pc + 1) rest) from rfl] at hw
    rcases List.mem_cons.mp hw with h | h
    · exact ⟨s, List.mem_cons_self _ _, pc, h⟩
    · cases hterm : isTerminal s
      · rw [hterm] at h
        simp only [if_false, Bool.false_eq_true] at h
        obtain ⟨s', hs', k, hk⟩ := ih (pc + 1) w h
        exact ⟨s', List.mem_cons_of_mem _ hs', k, hk⟩
      · rw [hterm] at h
        simp at h

/-- Writes form a non-decreasing chain along any valid error-free trace. -/
theorem monitorWritesFrom_chain (t : List JobStatus) :
    ∀ pc : Nat, List.Chain' (fun a b => statusRank a ≤ statusRank b) t →
      JobStatus.error ∉ t → List.Chain' (· ≤ ·) (monitorWritesFrom pc t) := by
  induction t with
  | nil => intro pc _ _; simp [monitorWritesFrom]
  | cons s rest ih =>
    intro pc hchain herr
    cases rest with
    | nil => cases hterm : isTerminal s <;> simp [monitorWritesFrom, hterm]
    | cons s2 rest2 =>
      rw [List.chain'_cons] at hchain
      obtain ⟨h12, hchain2⟩ := hchain
      have herr2 : JobStatus.error ∉ s2 :: rest2 := fun h => herr (List.mem_cons_of_mem _ h)
      have hs2 : s2 ≠ .error := fun h => herr2 (h ▸ List.mem_cons_self _ _)
      show List.Chain' (· ≤ ·) (monitorProgress s pc ::
        (if isTerminal s then [] else monitorWritesFrom (pc + 1) (s2 :: rest2)))
      cases hterm : isTerminal s
      · simp only [if_false, Bool.false_eq_true]
        rw [List.chain'_cons']
        constructor
        · intro y hy
          have hhead : (monitorWritesFrom (pc + 1) (s2 :: rest2)).head? =
              some (monitorProgress s2 (pc + 1)) := rfl
          rw [hhead, Option.mem_def, Option.some_inj] at hy
          rw [← hy]
          exact monitorProgress_step_le s s2 pc h12 hterm hs2
        · exact ih (pc + 1) hchain2 herr2
      · simp

/-- C5 (amended): along any poll trace that follows the job state machine
and observes no provider error, the progress values written by the adaptive
monitor are non-decreasing; a value of 100 is written only when the
completed status is observed, and with no completed observation every write
stays strictly below 100.  (A provider-reported error terminal writes a
fixed 90, which can be below the last processing estimate.) -/
theorem monitor_progress_monotone_below_100 (t : List JobStatus)
    (hchain : List.Chain' (fun a b => statusRank a ≤ statusRank b) t)
    (herr : JobStatus.error ∉ t) :
    List.Chain' (· ≤ ·) (monitorWrites t) ∧
      (∀ w ∈ monitorWrites t, w = 100 → JobStatus.completed ∈ t) ∧
      (JobStatus.completed ∉ t → ∀ w ∈ monitorWrites t, w < 100) := by
  refine ⟨monitorWritesFrom_chain t 0 hchain herr, ?_, ?_⟩
  · intro w hw h100
    obtain ⟨s, hs, k, rfl⟩ := monitorWritesFrom_mem t 0 w hw
    have hc : s = .completed := (monitorProgress_eq_100_iff s k).mp h100
    exact hc ▸ hs
  · intro hcomp w hw
    obtain ⟨s, hs, k, rfl⟩ := monitorWritesFrom_mem t 0 w hw
    have hterm : isTerminal s = false := by
      cases s with
      | queued => rfl
      | processing => rfl
      | completed => exact absurd hs hcomp
      | error => exact absurd hs herr
    exact monitorProgress_lt_100 s k hterm

/-- A constant run followed by one final element is a chain whenever the
relation holds on the repeated pair and the crossing pair. -/
theorem chain'_replicate_append_singleton {α : Type} {R : α → α → Prop} (a b : α)
    (haa : R a a) (hab : R a b) : ∀ n : Nat, List.Chain' R (List.replicate n a ++ [b])
  | 0 => List.chain'_singleton b
  | n + 1 => by
    show List.Chain' R (a :: (List.replicate n a ++ [b]))
    rw [List.chain'_cons']
    refine ⟨?_, chain'_replicate_append_singleton a b haa hab n⟩
    intro y hy
    cases n with
    | zero =>
      simp only [List.replicate, List.nil_append, List.head?_cons,
        Option.mem_def, Option.some_inj] at hy
      exact hy ▸ hab
    | succ m =>
      simp only [List.replicate, List.cons_append, List.head?_cons,
        Option.mem_def, Option.some_inj] at hy
      exact hy ▸ haa

/-- Witness for the amended C5 at the five-poll trace of §8. -/
theorem monitor_progress_monotone_witness :
    List.Chain' (· ≤ ·) (monitorWrites fivePollTrace) :=
  (monitor_progress_monotone_below_100 fivePollTrace
    (by norm_num [fivePollTrace, List.chain'_cons, statusRank]) (by decide)).1

/-- Writes of a run observing `n` processing polls and then an error: the
processing estimates followed by the fixed error write of 90. -/
theorem monitorWritesFrom_processing_error (n : Nat) :
    ∀ pc : Nat, monitorWritesFrom pc (List.replicate n JobStatus.processing ++ [JobStatus.error]) =
      (List.range n).map (fun j => monitorProgress .processing (pc + j)) ++ [90] := by
  induction n with
  | zero => intro pc; rfl
  | succ m ih =>
    intro pc
    show monitorProgress .processing pc ::
        monitorWritesFrom (pc + 1) (List.replicate m JobStatus.processing ++ [JobStatus.error]) = _
    rw [ih (pc + 1), List.range_succ_eq_map, List.map_cons, List.map_map]
    have hf : ((fun j => monitorProgress .processing (pc + j)) ∘ Nat.succ) =
        fun j => monitorProgress .processing (pc + 1 + j) := by
      funext j
      exact congrArg (monitorProgress .processing) (by omega)
    rw [hf]
    simp

/-- C5 is false as stated: on the valid trace of 206 processing polls
followed by a provider-reported error, the monitor writes 91 at poll 205 and
then 90 at the error — the reported progress decreases between successive
polls of one run. -/
theorem monitor_progress_decreases_on_error_cex :
    List.Chain' (fun a b => statusRank a ≤ statusRank b) longErrorTrace ∧
      ¬ List.Chain' (· ≤ ·) (monitorWrites longErrorTrace) := by
  constructor
  · exact @chain'_replicate_append_singleton JobStatus
      (fun a b => statusRank a ≤ statusRank b) JobStatus.processing JobStatus.error
      (le_refl _) (by norm_num [statusRank]) 206
  · intro hchain
    have hw : monitorWrites longErrorTrace =
        (List.range 206).map (fun j => monitorProgress .processing j) ++ [90] := by
      have h := monitorWritesFrom_processing_error 206 0
      simp only [Nat.zero_add] at h
      exact h
    rw [hw] at hchain
    obtain ⟨-, -, hcross⟩ := List.chain'_append.mp hchain
    have hlast : ((List.range 206).map
        (fun j => monitorProgress .processing j)).getLast? =
        some (monitorProgress .processing 205) := by
      rw [List.getLast?_eq_getElem?]
      simp
    have h91 : monitorProgress .processing 205 = 91 := by
      show (⌊min (50 + (205 : ℚ) / 5) 98⌋).toNat = 91
      have hv : (50 + (205 : ℚ) / 5) = 91 := by norm_num
      rw [hv]
      have hm : min (91 : ℚ) 98 = 91 := by norm_num
      rw [hm, show ⌊(91 : ℚ)⌋ = 91 by norm_num]
      rfl
    have hle : monitorProgress .processing 205 ≤ 90 := by
      have := hcross (monitorProgress .processing 205) (by rw [hlast]; rfl) 90 rfl
      exact this
    omega

/-! ### C8 -/

/-- Plan geometry of the enhanced segmenter: for a file above the size
threshold with a successfully probed duration, `create_optimal_segments`
emits `ceil(size_mb / target_mb)` slices, slice `i` spanning
`[i * d, (i+1) * d)` for `d = total / count`, and the planned durations sum
exactly to the probed total duration. -/
theorem split_plan_geometry (size : Nat) (total : ℚ)
    (h : ¬ fileSizeMB size ≤ target_size_mb) :
    create_optimal_segments size total = .sliced (splitPlan size total) ∧
      (splitPlan size total).length = num_segments size ∧
      (splitPlan size total).map PlannedSegment.index = List.range (num_segments size) ∧
      (∀ s ∈ splitPlan size total,
        s.plannedDuration = total / (num_segments size : ℚ) ∧
        s.startTime = (s.index : ℚ) * (total / (num_segments size : ℚ))) ∧
      ((splitPlan size total).map PlannedSegment.plannedDuration).sum = total := by
  have hpos : 0 < num_segments size := by
    have h80 : (80 : ℚ) < fileSizeMB size := by
      have := lt_of_not_le h
      simpa [target_size_mb] using this
    have hq : (0 : ℚ) < fileSizeMB size / target_size_mb := by
      have : (0 : ℚ) < fileSizeMB size := lt_trans (by norm_num) h80
      have ht : (0 : ℚ) < target_size_mb := by norm_num [target_size_mb]
      positivity
    have : 0 < ⌈fileSizeMB size / target_size_mb⌉ := Int.ceil_pos.mpr hq
    unfold num_segments
    omega
  have hne : ((num_segments size : ℚ)) ≠ 0 := Nat.cast_ne_zero.mpr hpos.ne'
  refine ⟨by simp [create_optimal_segments, h], ?_, ?_, ?_, ?_⟩
  · simp [splitPlan]
  · unfold splitPlan
    rw [List.map_map]
    have hf : (PlannedSegment.index ∘ fun i : Nat =>
        ({ index := i, startTime := (i : ℚ) * (total / (num_segments size : ℚ)),
           plannedDuration := total / (num_segments size : ℚ) } : PlannedSegment)) = id := rfl
    rw [hf, List.map_id]
  · intro s hs
    unfold splitPlan at hs
    simp only [List.mem_map, List.mem_range] at hs
    obtain ⟨i, _, rfl⟩ := hs
    exact ⟨rfl, rfl⟩
  · unfold splitPlan
    rw [List.map_map]
    have hf : (PlannedSegment.plannedDuration ∘ fun i : Nat =>
        ({ index := i, startTime := (i : ℚ) * (total / (num_segments size : ℚ)),
           plannedDuration := total / (num_segments size : ℚ) } : PlannedSegment)) =
        fun _ : Nat => total / (num_segments size : ℚ) := rfl
    rw [hf]
    have hmap : (List.range (num_segments size)).map
        (fun _ : Nat => total / (num_segments size : ℚ)) =
        List.replicate (num_segments size) (total / (num_segments size : ℚ)) := by
      rw [List.map_const', List.length_range]
    rw [hmap, List.sum_replicate, nsmul_eq_mul]
    field_simp

/-- The fixed-length segmenter splits a 700 s probed file into 2 slices. -/
theorem lf_segment_count_700 : lf_segment_count 700 = 2 := by
  unfold lf_segment_count
  rw [show ⌈(700 : ℚ) / 600⌉ = 2 from by
    rw [Int.ceil_eq_iff]
    norm_num]
  rfl

/-- The plan of the fixed-length segmenter at a 700 s probed duration. -/
theorem lf_splitPlan_700 :
    lf_splitPlan 700 = [⟨0, 0, 600⟩, ⟨1, 600, 600⟩] := by
  unfold lf_splitPlan
  rw [lf_segment_count_700]
  simp [List.range_succ]

/-- C8 is false as stated for the also-cited segmenter `split_audio_file`:
at a successfully probed duration of 700 s it plans
`ceil(700 / 600) = 2` fixed slices of 600 s each (the count computed from
the duration, not from `size / targetSegmentSize`), and the planned
durations sum to 1200 s — exceeding the probed total of 700 s by a full
500 s, far outside rounding tolerance. -/
theorem lf_split_plan_sum_cex :
    split_audio_file 700 = .sliced (lf_splitPlan 700) ∧
      lf_segment_count 700 = 2 ∧
      ((lf_splitPlan 700).map PlannedSegment.plannedDuration).sum = 1200 ∧
      (1200 : ℚ) ≠ 700 := by
  refine ⟨?_, lf_segment_count_700, ?_, by norm_num⟩
  · unfold split_audio_file
    rw [if_neg (by norm_num), if_neg (by rw [lf_segment_count_700]; omega)]
  · rw [lf_splitPlan_700]
    norm_num

/-- C8 (amended): the enhanced segmenter `create_optimal_segments` emits
`ceil(size_mb / target_mb)` slices of `totalDuration / segmentCount` each,
covering `[i*d, (i+1)*d)` and summing exactly to the probed total; the
simpler segmenter `split_audio_file` instead emits
`ceil(totalDuration / 600)` fixed 600 s slices starting at `i * 600`, whose
planned durations sum to `600 * segmentCount` — overshooting the probed
total by up to one full segment. -/
theorem plan_geometry_by_variant (size : Nat) (total : ℚ)
    (h : ¬ fileSizeMB size ≤ target_size_mb) (duration : ℚ)
    (hdur : duration ≠ 0) (hcount : 2 ≤ lf_segment_count duration) :
    (create_optimal_segments size total = .sliced (splitPlan size total) ∧
      (splitPlan size total).length = num_segments size ∧
      (splitPlan size total).map PlannedSegment.index = List.range (num_segments size) ∧
      (∀ s ∈ splitPlan size total,
        s.plannedDuration = total / (num_segments size : ℚ) ∧
        s.startTime = (s.index : ℚ) * (total / (num_segments size : ℚ))) ∧
      ((splitPlan size total).map PlannedSegment.plannedDuration).sum = total) ∧
      (split_audio_file duration = .sliced (lf_splitPlan duration) ∧
      (lf_splitPlan duration).length = lf_segment_count duration ∧
      (∀ s ∈ lf_splitPlan duration,
        s.plannedDuration = 600 ∧ s.startTime = (s.index : ℚ) * 600) ∧
      ((lf_splitPlan duration).map PlannedSegment.plannedDuration).sum =
        600 * (lf_segment_count duration : ℚ)) := by
  refine ⟨split_plan_geometry size total h, ?_, ?_, ?_, ?_⟩
  · unfold split_audio_file
    rw [if_neg hdur, if_neg (by omega)]
  · simp [lf_splitPlan]
  · intro s hs
    unfold lf_splitPlan at hs
    simp only [List.mem_map, List.mem_range] at hs
    obtain ⟨i, _, rfl⟩ := hs
    exact ⟨rfl, rfl⟩
  · unfold lf_splitPlan
    rw [List.map_map]
    have hf : (PlannedSegment.plannedDuration ∘ fun i : Nat =>
        ({ index := i, startTime := (i : ℚ) * 600, plannedDuration := 600 } : PlannedSegment)) =
        fun _ : Nat => (600 : ℚ) := rfl
    rw [hf]
    have hmap : (List.range (lf_segment_count duration)).map (fun _ : Nat => (600 : ℚ)) =
        List.replicate (lf_segment_count duration) (600 : ℚ) := by
      rw [List.map_const', List.length_range]
    rw [hmap, List.sum_replicate, nsmul_eq_mul]
    ring

/-- Witness for the amended C8 at a 200 MB file probed at 100 s (enhanced
segmenter) and a 700 s probed duration (fixed-length segmenter). -/
theorem plan_geometry_by_variant_witness :
    ((splitPlan 209715200 100).map PlannedSegment.plannedDuration).sum = 100 ∧
      ((lf_splitPlan 700).map PlannedSegment.plannedDuration).sum =
        600 * (lf_segment_count 700 : ℚ) :=
  ⟨(plan_geometry_by_variant 209715200 100 (by norm_num [fileSizeMB, target_size_mb])
      700 (by norm_num) (by rw [lf_segment_count_700])).1.2.2.2.2,
   (plan_geometry_by_variant 209715200 100 (by norm_num [fileSizeMB, target_size_mb])
      700 (by norm_num) (by rw [lf_segment_count_700])).2.2.2.2⟩

/-! ### C9 -/

/-- C9: a file at or below the size threshold yields the single-file
pass-through (no slicing), and merging the lone partial returns it
unchanged — identical to the modelled direct unsegmented run. -/
theorem small_file_single_segment_passthrough (size : Nat) (total : ℚ)
    (r : SegmentResult) (h : fileSizeMB size ≤ target_size_mb) :
    create_optimal_segments size total = .single ∧
      merge_segment_transcriptions [some r] = .ok (some (directRunResult r)) := by
  exact ⟨by simp [create_optimal_segments, h], rfl⟩

/-- Witness for C9 at a 1 MB file. -/
theorem small_file_single_segment_passthrough_witness :
    create_optimal_segments 1048576 30 = .single ∧
      merge_segment_transcriptions [some (segPlain "solo")] =
        .ok (some (directRunResult (segPlain "solo"))) :=
  small_file_single_segment_passthrough 1048576 30 (segPlain "solo")
    (by norm_num [fileSizeMB, target_size_mb])

/-! ### C10 -/

/-- The skip conditions, unfolded: a kept utterance has a stripped text of
length at least 2, timestamps `0 <= start < end`, and both timestamps within
`max_valid_time` (which is always positive). -/
theorem validUtterance_iff (td : TranscriptData) (u : RawUtterance) :
    validUtterance td u = true ↔
      2 ≤ (pyStrip u.text).length ∧ 0 ≤ u.start ∧ 0 ≤ u.endTime ∧ u.start < u.endTime ∧
        u.start ≤ maxValidTime td ∧ u.endTime ≤ maxValidTime td := by
  have hmax : 0 < maxValidTime td := by
    unfold maxValidTime
    positivity
  have hemp : ("" : String).length = 0 := rfl
  unfold validUtterance
  by_cases hA : pyStrip u.text = "" ∨ (pyStrip u.text).length < 2
  · rw [if_pos hA]
    simp only [Bool.false_eq_true, false_iff]
    rintro ⟨ha, -, -, -, -, -⟩
    rcases hA with h | h
    · rw [h, hemp] at ha
      omega
    · omega
  · rw [if_neg hA]
    by_cases hB : u.start < 0 ∨ u.endTime < 0 ∨ u.start ≥ u.endTime
    · rw [if_pos hB]
      simp only [Bool.false_eq_true, false_iff]
      rintro ⟨-, hb, hc, hd, -, -⟩
      rcases hB with h | h | h <;> omega
    · rw [if_neg hB]
      by_cases hC : 0 < maxValidTime td ∧ (u.start > maxValidTime td ∨ u.endTime > maxValidTime td)
      · rw [if_pos hC]
        simp only [Bool.false_eq_true, false_iff]
        rintro ⟨-, -, -, -, he, hf⟩
        rcases hC.2 with h | h <;> omega
      · rw [if_neg hC]
        simp only [true_iff]
        push_neg at hA hB hC
        have hC' := hC hmax
        refine ⟨?_, ?_, ?_, ?_, ?_, ?_⟩ <;> omega

/-- A lookup in the label map succeeds exactly for an already-seen key. -/
theorem lookup_isSome_iff (l : String) :
    ∀ m : List (String × String), (m.lookup l).isSome = true ↔ l ∈ m.map Prod.fst := by
  intro m
  induction m with
  | nil => simp [List.lookup]
  | cons kv rest ih =>
    obtain ⟨k, v⟩ := kv
    by_cases hk : l = k
    · subst hk
      simp [List.lookup]
    · have hbeq : (l == k) = false := beq_eq_false_iff_ne.mpr hk
      simp [List.lookup, hbeq, ih, hk]

/-- Unfolding of `firstAppear` on a nonempty list. -/
theorem firstAppear_cons (seen : List String) (a : String) (l : List String) :
    firstAppear seen (a :: l) =
      if a ∈ seen then firstAppear seen l else a :: firstAppear (a :: seen) l := rfl

/-- `firstAppear` only depends on the seen list through membership. -/
theorem firstAppear_congr : ∀ (l seen seen' : List String),
    (∀ x, x ∈ seen ↔ x ∈ seen') → firstAppear seen l = firstAppear seen' l
  | [], _, _, _ => rfl
  | a :: l, seen, seen', h => by
    unfold firstAppear
    by_cases ha : a ∈ seen
    · rw [if_pos ha, if_pos ((h a).mp ha)]
      exact firstAppear_congr l seen seen' h
    · rw [if_neg ha, if_neg (fun hx => ha ((h a).mpr hx))]
      refine congrArg (a :: ·) (firstAppear_congr l (a :: seen) (a :: seen') ?_)
      intro x
      simp [h x]

/-- Projection of the emitted segments: exactly the validated utterances,
stripped text and timestamps untouched (dropped, never repaired). -/
theorem processFrom_spec (td : TranscriptData) :
    ∀ (us : List RawUtterance) (m : List (String × String)) (c : Nat),
      ((processFrom td m c us).1.map fun s => (s.text, s.start, s.endTime, s.confidence)) =
        ((us.filter (validUtterance td)).map fun u =>
          (pyStrip u.text, u.start, u.endTime, u.confidence)) := by
  intro us
  induction us with
  | nil => intro m c; rfl
  | cons u rest ih =>
    intro m c
    by_cases hv : validUtterance td u = true
    · simp [processFrom, hv, List.filter_cons, ih]
    · simp [processFrom, hv, List.filter_cons, ih]

/-- The final speaker map pairs the distinct normalized labels, in order of
first appearance among the kept utterances, with the successive display
names. -/
theorem processFrom_map (td : TranscriptData) :
    ∀ (us : List RawUtterance) (m : List (String × String)) (c : Nat),
      (processFrom td m c us).2.1 =
        m ++ namedFrom c (firstAppear (m.map Prod.fst)
          ((us.filter (validUtterance td)).map fun u => normalizeSpeaker u.speaker)) := by
  intro us
  induction us with
  | nil => intro m c; simp [processFrom, firstAppear, namedFrom]
  | cons u rest ih =>
    intro m c
    by_cases hv : validUtterance td u = true
    · by_cases hmem : (m.lookup (normalizeSpeaker u.speaker)).isSome = true
      · have hkey : normalizeSpeaker u.speaker ∈ m.map Prod.fst :=
          (lookup_isSome_iff _ m).mp hmem
        have hstep : (processFrom td m c (u :: rest)).2.1 = (processFrom td m c rest).2.1 := by
          simp [processFrom, hv, hmem]
        rw [hstep, ih m c]
        have hfa : firstAppear (m.map Prod.fst)
            (((u :: rest).filter (validUtterance td)).map fun x => normalizeSpeaker x.speaker) =
            firstAppear (m.map Prod.fst)
              ((rest.filter (validUtterance td)).map fun x => normalizeSpeaker x.speaker) := by
          simp only [List.filter_cons, hv, if_true, List.map_cons, firstAppear_cons]
          rw [if_pos hkey]
        rw [hfa]
      · have hstep : (processFrom td m c (u :: rest)).2.1 =
            (processFrom td (m ++ [(normalizeSpeaker u.speaker, speakerDisplayName c)])
              (c + 1) rest).2.1 := by
          simp [processFrom, hv, hmem]
        have hkey : normalizeSpeaker u.speaker ∉ m.map Prod.fst := by
          intro hmem'
          exact hmem ((lookup_isSome_iff _ m).mpr hmem')
        rw [hstep, ih]
        have hkeys : (m ++ [(normalizeSpeaker u.speaker, speakerDisplayName c)]).map Prod.fst =
            m.map Prod.fst ++ [normalizeSpeaker u.speaker] := by
          simp
        rw [hkeys]
        have hfa : firstAppear (m.map Prod.fst)
            (((u :: rest).filter (validUtterance td)).map fun x => normalizeSpeaker x.speaker) =
            normalizeSpeaker u.speaker ::
              firstAppear (normalizeSpeaker u.speaker :: m.map Prod.fst)
                ((rest.filter (validUtterance td)).map fun x => normalizeSpeaker x.speaker) := by
          simp only [List.filter_cons, hv, if_true, List.map_cons, firstAppear_cons]
          rw [if_neg hkey]
        rw [hfa]
        have hseen : firstAppear (normalizeSpeaker u.speaker :: m.map Prod.fst)
            ((rest.filter (validUtterance td)).map fun x => normalizeSpeaker x.speaker) =
            firstAppear (m.map Prod.fst ++ [normalizeSpeaker u.speaker])
              ((rest.filter (validUtterance td)).map fun x => normalizeSpeaker x.speaker) := by
          apply firstAppear_congr
          intro x
          simp [or_comm]
        rw [← hseen]
        show m ++ [(normalizeSpeaker u.speaker, speakerDisplayName c)] ++
            namedFrom (c + 1) (firstAppear (normalizeSpeaker u.speaker :: m.map Prod.fst) _) =
          m ++ ((normalizeSpeaker u.speaker, speakerDisplayName c) ::
            namedFrom (c + 1) (firstAppear (normalizeSpeaker u.speaker :: m.map Prod.fst) _))
        simp
    · have hstep : (processFrom td m c (u :: rest)).2.1 = (processFrom td m c rest).2.1 := by
        simp [processFrom, hv]
      rw [hstep, ih m c]
      simp only [List.filter_cons, hv, if_false, Bool.false_eq_true]

/-- C10: every emitted speaker segment has a stripped text of length at
least 2 and integer timestamps `0 <= start < end` with
`end <= audio_duration + 5000`; the emitted segments are exactly the
validated utterances (invalid ones are dropped, never repaired); and the
speaker map assigns display names to provider labels in order of first
appearance. -/
theorem speaker_segments_validated_and_named (td : TranscriptData) :
    (∀ s ∈ process_speaker_segments td,
      2 ≤ s.text.length ∧ 0 ≤ s.start ∧ s.start < s.endTime ∧
        s.endTime ≤ (td.audio_duration : Int) + 5000) ∧
      ((process_speaker_segments td).map fun s => (s.text, s.start, s.endTime, s.confidence)) =
        ((td.utterances.filter (validUtterance td)).map fun u =>
          (pyStrip u.text, u.start, u.endTime, u.confidence)) ∧
      finalSpeakerMap td = namedFrom 0 (firstAppear [] (validLabels td)) := by
  have hproj : ((process_speaker_segments td).map fun s =>
      (s.text, s.start, s.endTime, s.confidence)) =
      ((td.utterances.filter (validUtterance td)).map fun u =>
        (pyStrip u.text, u.start, u.endTime, u.confidence)) :=
    processFrom_spec td td.utterances [] 0
  refine ⟨?_, hproj, ?_⟩
  · intro s hs
    have hmem : (s.text, s.start, s.endTime, s.confidence) ∈
        ((process_speaker_segments td).map fun s => (s.text, s.start, s.endTime, s.confidence)) :=
      List.mem_map_of_mem _ hs
    rw [hproj] at hmem
    obtain ⟨u, hu, huv⟩ := List.mem_map.mp hmem
    obtain ⟨-, hvalid⟩ := List.mem_filter.mp hu
    have hbounds := (validUtterance_iff td u).mp hvalid
    have hmaxval : maxValidTime td = (td.audio_duration : Int) + 5000 := rfl
    rw [hmaxval] at hbounds
    simp only [Prod.ext_iff] at huv
    obtain ⟨ht, hst, hen, -⟩ := huv
    rw [← ht, ← hst, ← hen]
    refine ⟨hbounds.1, ?_, ?_, ?_⟩ <;> omega
  · have hmap := processFrom_map td td.utterances [] 0
    simpa [finalSpeakerMap, validLabels] using hmap

/-- Witness for C10 at a payload with one valid, three invalid and one
unlabeled utterance. -/
theorem speaker_segments_witness :
    2 ≤ speakerSegExpected.text.length ∧ 0 ≤ speakerSegExpected.start ∧
      speakerSegExpected.start < speakerSegExpected.endTime ∧
      speakerSegExpected.endTime ≤ (speakerExample.audio_duration : Int) + 5000 :=
  (speaker_segments_validated_and_named speakerExample).1 speakerSegExpected (by decide)

end VTP
